import Mathlib

/-!
# MicroTeX row composition and peripheral atoms

A shallow embedding of `src/atom/atom_row.h` (`AtomDecor`, `RowAtom`) and
`src/atom/atom_misc.cpp` (`BigDelimiterAtom`, `RotateAtom`, `LongDivAtom`,
`CancelAtom`), together with the properties of the row composition
described in the design document.

Conventions.
* A `sptr<Atom>` is a reference `AtomRef` into an explicit `Heap`; code that
  can reach an atom only through such a pointer takes the heap as an argument
  and, when it is a mutator, returns the heap it leaves behind.
* `float` quantities range over an arbitrary carrier `F` equipped with the
  arithmetic operations the code uses, so that nothing proved here depends on
  the rounding behaviour of a particular number format.
* `long` quantities are unbounded integers.  `LongDivAtom::calculate` is
  studied for `0 ≤ dividend` and `0 < divisor`, where every value it pushes
  lies between `0` and `dividend` (see `calculate_products_bounded`), hence in
  the range of `long` whenever the dividend is.
-/

namespace tex

/-! ## Atom classification -/

/-- Modelled from the spec: the `AtomType` enumeration of `atom/atom.h`, which is
not part of the sources at hand.  The design document lists the classes
ordinary, operator, binary-op, relation, opening, closing, punctuation and
inner; `none` is the "no type" value the decoration code compares against. -/
inductive AtomType where
  | none
  | ordinary
  | bigOperator
  | binaryOperator
  | relation
  | opening
  | closing
  | punctuation
  | inner
  deriving DecidableEq, Repr

/-- Modelled from the spec: the part of the `Atom` contract of `atom/atom.h` that
the row code observes: the stored `_type` and the results of the virtual
`leftType()` and `rightType()`. -/
structure Atom where
  _type : AtomType
  leftType : AtomType
  rightType : AtomType
  deriving DecidableEq, Repr

/-- A `sptr<Atom>`: the address of an atom object. -/
abbrev AtomRef := Nat

/-- The atom objects, by address. -/
abbrev Heap := AtomRef → Atom

/-! ## `AtomDecor` -/

/-- `class AtomDecor`: the fields `_atom`, `_textSymbol` and `_type`. -/
structure AtomDecor where
  _atom : AtomRef
  _textSymbol : Bool
  _type : AtomType
  deriving DecidableEq, Repr

namespace AtomDecor

/-- `explicit AtomDecor(const sptr<Atom>& atom)`. -/
def new (atom : AtomRef) : AtomDecor :=
  { _textSymbol := false, _atom := atom, _type := AtomType.none }

/-- `AtomDecor::leftType()`:
`_type != AtomType::none ? _type : _atom->leftType()`. -/
def leftType (h : Heap) (d : AtomDecor) : AtomType :=
  if d._type ≠ AtomType.none then d._type else (h d._atom).leftType

/-- `AtomDecor::rightType()`:
`_type != AtomType::none ? _type : _atom->rightType()`. -/
def rightType (h : Heap) (d : AtomDecor) : AtomType :=
  if d._type ≠ AtomType.none then d._type else (h d._atom).rightType

/-- `AtomDecor::markAsTextSymbol()`: `_textSymbol = true`. -/
def markAsTextSymbol (d : AtomDecor) : AtomDecor :=
  { d with _textSymbol := true }

end AtomDecor

/-- The mutators of an `AtomDecor` that the header defines: an assignment to
the public field `_type`, and `markAsTextSymbol()`. -/
inductive DecorOp where
  | assignType (t : AtomType)
  | markAsTextSymbol
  deriving DecidableEq, Repr

/-- A program state while a decoration is alive: the atom objects and the
decoration itself. -/
structure DecorState where
  heap : Heap
  decor : AtomDecor

/-- Construction of a decoration for the atom at `atom`, in heap `h`. -/
def DecorState.construct (h : Heap) (atom : AtomRef) : DecorState :=
  { heap := h, decor := AtomDecor.new atom }

/-- One mutator applied to a state.  Neither body dereferences `_atom`. -/
def DecorState.step (s : DecorState) : DecorOp → DecorState
  | DecorOp.assignType t => { heap := s.heap, decor := { s.decor with _type := t } }
  | DecorOp.markAsTextSymbol => { heap := s.heap, decor := s.decor.markAsTextSymbol }

/-- A sequence of mutators, applied left to right. -/
def DecorState.run (s : DecorState) (ops : List DecorOp) : DecorState :=
  ops.foldl DecorState.step s

/-! ## `RowAtom`: the part defined in the header -/

/-- `class RowAtom`: the fields `_breakable`, `_elements`, `_previousAtom`
and `_lookAtLastAtom`. -/
structure RowAtom where
  _breakable : Bool
  _elements : List AtomRef
  _previousAtom : Option AtomDecor
  _lookAtLastAtom : Bool
  deriving DecidableEq, Repr

namespace RowAtom

/-- `RowAtom() : _lookAtLastAtom(false), _breakable(true) {}`; the vector and
the shared pointer are default-initialised (empty, null). -/
def new : RowAtom :=
  { _lookAtLastAtom := false, _breakable := true, _elements := [], _previousAtom := none }

/-- `RowAtom::setBreakable`: `_breakable = breakable`. -/
def setBreakable (r : RowAtom) (breakable : Bool) : RowAtom :=
  { r with _breakable := breakable }

/-- `RowAtom::size`: `_elements.size()`. -/
def size (r : RowAtom) : Nat :=
  r._elements.length

end RowAtom

/-! ## `RowAtom`: classification and box assembly

`changeToOrd`, `createBox` and the static table `_binSet` are declared in
`atom_row.h` and defined in `atom_row.cpp`, which is not among the sources at
hand; the definitions of this section follow the design document. -/

/-- Modelled from the spec: the contents of the static table `RowAtom::_binSet`
(`std::bitset<16>`, one bit per atom type), missing with `atom_row.cpp`.  The
design document names the members: operator, binary, relation, opening and
punctuation. -/
def RowAtom._binSet : AtomType → Bool
  | AtomType.bigOperator => true
  | AtomType.binaryOperator => true
  | AtomType.relation => true
  | AtomType.opening => true
  | AtomType.punctuation => true
  | _ => false

/-- Modelled from the spec: `RowAtom::changeToOrd(cur, prev, next)`, missing with
`atom_row.cpp`.  Section 4.3, step 1: "If the element's class is
binary-operator-like and the running effective right-type of the previous
decoration is a member of the bin-reclassification set (or there is no
previous element), override this element's classification to ordinary."  The
table is an argument; `next` is the following element, which the step is said
to look at without a rule being given for it. -/
def RowAtom.changeToOrd (binSet : AtomType → Bool) (h : Heap) (cur : AtomDecor)
    (prev : Option AtomDecor) (_next : Option AtomRef) : AtomDecor :=
  if cur.leftType h = AtomType.binaryOperator ∧
      (match prev with
       | none => true
       | some p => binSet (p.rightType h)) = true
  then { cur with _type := AtomType.ordinary }
  else cur

/-- Modelled from the spec: the classification pass of `RowAtom::createBox`,
missing with `atom_row.cpp`.  Section 4.3, steps 1 and 6: each element, left to
right, is wrapped in a fresh decoration and classified against the decoration
of the element before it, which is then replaced by the new one. -/
def RowAtom.classifyFrom (binSet : AtomType → Bool) (h : Heap) :
    Option AtomDecor → List AtomRef → List AtomDecor
  | _, [] => []
  | prev, a :: rest =>
    let cur := RowAtom.changeToOrd binSet h (AtomDecor.new a) prev rest.head?
    cur :: RowAtom.classifyFrom binSet h (some cur) rest

/-- Modelled from the spec: the classification pass over a whole row, seeded
with the externally supplied previous decoration. -/
def RowAtom.classify (binSet : AtomType → Bool) (h : Heap) (r : RowAtom) : List AtomDecor :=
  RowAtom.classifyFrom binSet h r._previousAtom r._elements

/-- Modelled from the spec: a `Box` of `box/box.h`, which is not among the sources
at hand: a "geometric node with width, height, depth, optional vertical
shift".  The field names are those `atom_misc.cpp` uses. -/
structure Box (F : Type) where
  _width : F
  _height : F
  _depth : F
  _shift : F
  deriving DecidableEq, Repr

/-- Modelled from the spec: what the row composition consults outside the row
itself: the box of one decorated element (from which alone a failure can
come), the font kern of an adjacent pair if the pair is resolved that way, the
exemption from spacing, and the spacing table keyed by the two effective
types. -/
structure RowCollab (Env F : Type) where
  elementBox : Env → Heap → AtomDecor → Except String (Box F)
  kern : Env → AtomDecor → AtomDecor → Option (Box F)
  exempt : AtomDecor → Bool
  glue : Env → AtomType → AtomType → Box F

/-- Modelled from the spec: the horizontal box assembled from a sequence of
boxes.  Section 4.3, step 4: "width is the sum of member widths and glue;
height/depth are the max over members". -/
def HBox {F : Type} [Zero F] [Add F] [Max F] (bs : List (Box F)) : Box F :=
  { _width := (bs.map Box._width).sum
    _height := match bs with
      | [] => 0
      | b :: rest => rest.foldl (fun m c => max m c._height) b._height
    _depth := match bs with
      | [] => 0
      | b :: rest => rest.foldl (fun m c => max m c._depth) b._depth
    _shift := 0 }

/-- Modelled from the spec: steps 2 to 4 of section 4.3 over the classified
elements: an adjacent pair gets the font kern if there is one and otherwise,
unless exempt, the glue of the spacing table; the element boxes and the
separators are listed in the original order. -/
def RowAtom.rowBoxes {Env F : Type} (c : RowCollab Env F) (env : Env) (h : Heap) :
    Option AtomDecor → List AtomDecor → Except String (List (Box F))
  | _, [] => Except.ok []
  | prev, d :: ds =>
    match c.elementBox env h d with
    | Except.error e => Except.error e
    | Except.ok b =>
      let sep : List (Box F) :=
        match prev with
        | none => []
        | some p =>
          match c.kern env p d with
          | some k => [k]
          | none =>
            if c.exempt p || c.exempt d then []
            else [c.glue env (p.rightType h) (d.leftType h)]
      match RowAtom.rowBoxes c env h (some d) ds with
      | Except.error e => Except.error e
      | Except.ok rest => Except.ok (sep ++ b :: rest)

/-- Modelled from the spec: `RowAtom::createBox`, missing with `atom_row.cpp`:
classification, separators, assembly into one horizontal box (section 4.3). -/
def RowAtom.createBox {Env F : Type} [Zero F] [Add F] [Max F] (c : RowCollab Env F)
    (binSet : AtomType → Bool) (env : Env) (h : Heap) (r : RowAtom) : Except String (Box F) :=
  match RowAtom.rowBoxes c env h r._previousAtom (RowAtom.classify binSet h r) with
  | Except.error e => Except.error e
  | Except.ok bs => Except.ok (HBox bs)

/-! ## Peripheral atoms of `atom_misc.cpp`

The rendering context is passed as `Env&`: a callee that receives it may
change it, so such a callee returns the context it leaves behind together
with its result. -/

/-- Modelled from the spec: the `Rotation` enumeration of the box headers, which
are not among the sources at hand.  `atom_misc.cpp` names two of its values,
`none` and `bl`; every other origin is `other k`. -/
inductive Rotation where
  | none
  | bl
  | other (k : Nat)
  deriving DecidableEq, Repr

/-- Modelled from the spec: the `UnitType` enumeration of the unit-conversion
headers, which are not among the sources at hand.  `atom_misc.cpp` names `em`,
`ex`, `point` and `x8`; every other unit is `other k`. -/
inductive UnitType where
  | em
  | ex
  | point
  | x8
  | other (k : Nat)
  deriving DecidableEq, Repr

/-- Modelled from the spec: `RotateBox` of the box headers, which are not among
the sources at hand, kept as the record of which of its two constructors
`RotateAtom::createBox` calls and with which arguments:
`RotateBox(box, angle, option)` or `RotateBox(box, angle, x, y)`. -/
inductive RotateBox (F : Type) where
  | byOrigin (base : Box F) (angle : F) (option : Rotation)
  | byOffset (base : Box F) (angle : F) (x : F) (y : F)
  deriving DecidableEq, Repr

/-- What `createBox` of the peripheral atoms calls outside `atom_misc.cpp`:
`tex::createVDelim`, `env.mathConsts().axisHeight()`, `env.scale()`,
`Box::vlen`, the virtual `_base->createBox(env)`, `Units::fsize` and
`StrutBox::empty()`. -/
structure Collab (Env F : Type) where
  createVDelim : AtomRef → Env → Int → Box F × Env
  axisHeight : Env → F
  scale : Env → F
  vlen : Box F → F
  baseCreateBox : AtomRef → Env → Box F × Env
  fsize : UnitType → F → Env → F
  strutEmpty : Box F

/-- The collaborators cannot tell two contexts related by `R` apart: they
return equal results on them, and the contexts they leave behind are related
again. -/
structure Collab.Respects {Env F : Type} (c : Collab Env F) (R : Env → Env → Prop) : Prop where
  createVDelim : ∀ d s e₁ e₂, R e₁ e₂ →
    (c.createVDelim d e₁ s).1 = (c.createVDelim d e₂ s).1 ∧
      R (c.createVDelim d e₁ s).2 (c.createVDelim d e₂ s).2
  axisHeight : ∀ e₁ e₂, R e₁ e₂ → c.axisHeight e₁ = c.axisHeight e₂
  scale : ∀ e₁ e₂, R e₁ e₂ → c.scale e₁ = c.scale e₂
  baseCreateBox : ∀ a e₁ e₂, R e₁ e₂ →
    (c.baseCreateBox a e₁).1 = (c.baseCreateBox a e₂).1 ∧
      R (c.baseCreateBox a e₁).2 (c.baseCreateBox a e₂).2
  fsize : ∀ u x e₁ e₂, R e₁ e₂ → c.fsize u x e₁ = c.fsize u x e₂

/-- `class BigDelimiterAtom`, declared in `atom_misc.h`, which is not among the
sources at hand: the fields `_delim` and `_size` that `createBox` reads. -/
structure BigDelimiterAtom where
  _delim : AtomRef
  _size : Int
  deriving DecidableEq, Repr

/-- `BigDelimiterAtom::createBox`.  The result is the box, the context left
behind and the atom after the call. -/
def BigDelimiterAtom.createBox {Env F : Type} [Neg F] [Sub F] [Mul F] [Div F] [OfNat F 2]
    (c : Collab Env F) (self : BigDelimiterAtom) (env : Env) :
    Box F × Env × BigDelimiterAtom :=
  let (b, env) := c.createVDelim self._delim env self._size
  let axis := c.axisHeight env * c.scale env
  let b := { b with _shift := -(c.vlen b / 2 - b._height) - axis }
  (b, env, self)

/-- `class RotateAtom`, declared in `atom_misc.h`, which is not among the
sources at hand: the fields its constructors initialise, `_type` (inherited
from `Atom`), `_base`, `_angle`, `_option`, `_xunit`, `_x`, `_yunit`, `_y`. -/
structure RotateAtom (F : Type) where
  _type : AtomType
  _base : AtomRef
  _angle : F
  _option : Rotation
  _xunit : UnitType
  _x : F
  _yunit : UnitType
  _y : F
  deriving DecidableEq, Repr

/-- What the constructors of `RotateAtom` call outside `atom_misc.cpp`:
`wide2utf8`, `parseOption` (a `map<string, string>`, here the list of its
entries), `RotateBox::getOrigin`, `Units::getLength` and `valueof` (which
stores the parsed number in its second argument, given here with the value it
had). -/
structure RotateCollab (F : Type) where
  wide2utf8 : String → String
  parseOption : String → List (String × String)
  getOrigin : String → Rotation
  getLength : String → UnitType × F
  valueof : String → F → F

/-- `RotateAtom::RotateAtom(const sptr<Atom>& base, float angle, const wstring& option)`. -/
def RotateAtom.ofFloat {F : Type} [Zero F] (rc : RotateCollab F) (h : Heap)
    (base : AtomRef) (angle : F) (option : String) : RotateAtom F :=
  let self : RotateAtom F :=
    { _type := (h base)._type, _base := base, _angle := 0, _option := Rotation.bl,
      _xunit := UnitType.em, _yunit := UnitType.em, _x := 0, _y := 0 }
  let self := { self with _angle := angle }
  let x := rc.wide2utf8 option
  let opt := rc.parseOption x
  match opt.lookup "origin" with
  | some v => { self with _option := rc.getOrigin v }
  | none =>
    let self :=
      match opt.lookup "x" with
      | some v => { self with _xunit := (rc.getLength v).1, _x := (rc.getLength v).2 }
      | none => { self with _xunit := UnitType.point, _x := 0 }
    match opt.lookup "y" with
    | some v => { self with _yunit := (rc.getLength v).1, _y := (rc.getLength v).2 }
    | none => { self with _yunit := UnitType.point, _y := 0 }

/-- `RotateAtom::RotateAtom(const sptr<Atom>& base, const wstring& angle, const wstring& option)`. -/
def RotateAtom.ofString {F : Type} [Zero F] (rc : RotateCollab F) (h : Heap)
    (base : AtomRef) (angle : String) (option : String) : RotateAtom F :=
  let self : RotateAtom F :=
    { _type := (h base)._type, _base := base, _angle := 0, _option := Rotation.none,
      _xunit := UnitType.em, _yunit := UnitType.em, _x := 0, _y := 0 }
  let self := { self with _angle := rc.valueof angle self._angle }
  let x := rc.wide2utf8 option
  { self with _option := rc.getOrigin x }

/-- `RotateAtom::createBox`.  The result is the box, the context left behind
and the atom after the call. -/
def RotateAtom.createBox {Env F : Type} (c : Collab Env F) (self : RotateAtom F) (env : Env) :
    RotateBox F × Env × RotateAtom F :=
  if self._option ≠ Rotation.none then
    let (b, env) := c.baseCreateBox self._base env
    (RotateBox.byOrigin b self._angle self._option, env, self)
  else
    let x := c.fsize self._xunit self._x env
    let y := c.fsize self._yunit self._y env
    let (b, env) := c.baseCreateBox self._base env
    (RotateBox.byOffset b self._angle x y, env, self)

/-- `class CancelAtom`.  Its declaration is in `atom_misc.h`, which is not among
the sources at hand; `createBox` reads none of its fields, which are kept as
one value of an arbitrary type. -/
structure CancelAtom (Fields : Type) where
  fields : Fields

/-- `CancelAtom::createBox`: `return StrutBox::empty();`. -/
def CancelAtom.createBox {Env F Fields : Type} (c : Collab Env F) (self : CancelAtom Fields)
    (env : Env) : Box F × Env × CancelAtom Fields :=
  (c.strutEmpty, env, self)

/-! ## `LongDivAtom::calculate` -/

/-- Modelled from the spec: the digit loop behind `tostring`, missing with the
string utilities: the decimal digits of `n`, most significant first, put in
front of `acc`; `fuel` bounds the number of digits produced. -/
def decimalDigits : Nat → Nat → List Char → List Char
  | 0, _, acc => acc
  | fuel + 1, n, acc =>
    if n / 10 = 0 then Nat.digitChar (n % 10) :: acc
    else decimalDigits fuel (n / 10) (Nat.digitChar (n % 10) :: acc)

/-- Modelled from the spec: `tostring(long)` of the string utilities, which are
not among the sources at hand and which the design document leaves to the
standard library: the decimal rendering of `std::to_string`, a minus sign
followed by the digits of the magnitude for a negative number.  A
`std::string` is the list of its characters. -/
def tostring (v : Int) : List Char :=
  if v < 0 then '-' :: decimalDigits (v.natAbs + 1) v.natAbs []
  else decimalDigits (v.toNat + 1) v.toNat []

/-- Modelled from the spec: `towstring(long)` of the string utilities, the same
rendering as a wide string. -/
def towstring (v : Int) : List Char :=
  tostring v

namespace LongDivAtom

/-- The body of the loop of `LongDivAtom::calculate` at index `i`, on the pair
of `remaining` and `results`.  `x[i] - '0'` is a difference of character codes;
`pow(10, len - i - 1)` is an exact power of ten. -/
def calculateBody (_divisor : Int) (x : List Char) (len : Nat)
    (st : Int × List (List Char)) (i : Nat) : Int × List (List Char) :=
  let b : Int := (((x.getD i '0').toNat : Int) - (('0').toNat : Int)) * 10 ^ (len - i - 1)
  let product := b * _divisor
  let remaining := st.1 - product
  (remaining, st.2 ++ [towstring product] ++ [towstring remaining])

/-- `LongDivAtom::calculate`: the strings pushed to `results`, in order.  The
division by zero, which has no defined result, yields `none`; `/` on `long`
truncates. -/
def calculate (_divisor _dividend : Int) : Option (List (List Char)) :=
  if _divisor = 0 then none
  else
    let quotient := Int.tdiv _dividend _divisor
    let results := [towstring quotient]
    let x := tostring quotient
    let len := x.length
    let remaining := _dividend
    let results := results ++ [towstring remaining]
    some ((List.range len).foldl (calculateBody _divisor x len) (remaining, results)).2

end LongDivAtom

/-- The `j`-th value of the long-division tableau of `dividend` by `divisor`
with quotient `q` of `d` digits: the quotient, then alternately a remainder
(the dividend less the divisor times the quotient truncated to its leading
digits) and the product of the divisor with one digit of the quotient at its
place value. -/
def tableauEntry (divisor dividend : Int) (q d : Nat) (j : Nat) : Int :=
  if j = 0 then (q : Int)
  else if j % 2 = 1 then
    dividend - ((q / 10 ^ (d - j / 2) * 10 ^ (d - j / 2) : Nat) : Int) * divisor
  else ((q / 10 ^ (d - j / 2) % 10 * 10 ^ (d - j / 2) : Nat) : Int) * divisor

/-! ## Sample collaborators -/

/-- Collaborators over contexts `Nat` and lengths `Int` that read the parity of
the context and advance it by an even amount. -/
def sampleCollab : Collab Nat Int :=
  { createVDelim := fun _ e s => (⟨(e % 2 : Nat), s, 1, 0⟩, e + 2)
    axisHeight := fun e => ((e % 2 : Nat) : Int) + 3
    scale := fun _ => 2
    vlen := fun b => b._height + b._depth
    baseCreateBox := fun a e => (⟨(e % 2 : Nat), (a : Nat), 0, 0⟩, e + 4)
    fsize := fun _ x e => x * (((e % 2 : Nat) : Int) + 1)
    strutEmpty := ⟨0, 0, 0, 0⟩ }

/-! ## `AtomDecor`: classification override -/

/-- C1: the left and the right type of a decoration are the overridden type
when there is one (`_type` is not `none`), and the left, respectively right,
type of the wrapped atom when there is none. -/
theorem AtomDecor.type_override_or_delegate (h : Heap) (d : AtomDecor) :
    (d._type ≠ AtomType.none → d.leftType h = d._type ∧ d.rightType h = d._type) ∧
    (d._type = AtomType.none →
      d.leftType h = (h d._atom).leftType ∧ d.rightType h = (h d._atom).rightType) := by
  constructor
  · intro hne
    simp [AtomDecor.leftType, AtomDecor.rightType, hne]
  · intro he
    simp [AtomDecor.leftType, AtomDecor.rightType, he]

/-- Both cases of C1 on a binary operator at address `0`: overridden to
ordinary, and not overridden. -/
theorem AtomDecor.type_override_or_delegate_witness :
    (AtomDecor.leftType (fun _ => ⟨AtomType.binaryOperator, AtomType.binaryOperator,
        AtomType.binaryOperator⟩) ⟨0, false, AtomType.ordinary⟩ = AtomType.ordinary ∧
      AtomDecor.rightType (fun _ => ⟨AtomType.binaryOperator, AtomType.binaryOperator,
        AtomType.binaryOperator⟩) ⟨0, false, AtomType.ordinary⟩ = AtomType.ordinary) ∧
    (AtomDecor.leftType (fun _ => ⟨AtomType.binaryOperator, AtomType.binaryOperator,
        AtomType.binaryOperator⟩) ⟨0, false, AtomType.none⟩ = AtomType.binaryOperator ∧
      AtomDecor.rightType (fun _ => ⟨AtomType.binaryOperator, AtomType.binaryOperator,
        AtomType.binaryOperator⟩) ⟨0, false, AtomType.none⟩ = AtomType.binaryOperator) :=
  ⟨(AtomDecor.type_override_or_delegate _ ⟨0, false, AtomType.ordinary⟩).1 (by decide),
   (AtomDecor.type_override_or_delegate _ ⟨0, false, AtomType.none⟩).2 rfl⟩

theorem DecorState.step_heap (s : DecorState) (op : DecorOp) : (s.step op).heap = s.heap := by
  cases op <;> rfl

theorem DecorState.step_atom (s : DecorState) (op : DecorOp) :
    (s.step op).decor._atom = s.decor._atom := by
  cases op <;> rfl

theorem DecorState.run_heap (ops : List DecorOp) :
    ∀ s : DecorState, (s.run ops).heap = s.heap ∧ (s.run ops).decor._atom = s.decor._atom := by
  induction ops with
  | nil => intro s; exact ⟨rfl, rfl⟩
  | cons op ops ih =>
    intro s
    have h := ih (s.step op)
    simp only [DecorState.run, List.foldl_cons] at h ⊢
    rw [h.1, h.2, DecorState.step_heap, DecorState.step_atom]
    exact ⟨rfl, rfl⟩

/-- C2: a decoration never writes to the atom it wraps.  After the
construction of a decoration from the atom at `a` and any sequence of
assignments to `_type` and calls of `markAsTextSymbol()`, the atom objects are
what they were, so the left and right type of every atom, `a` among them, are
unchanged, and the decoration still refers to `a`.  One call of
`markAsTextSymbol()` sets the text-symbol flag and leaves the atom objects, the
wrapped reference, the override type and the left and right type of the
decoration as they were. -/
theorem AtomDecor.never_writes_wrapped_atom (h : Heap) (a : AtomRef) (ops : List DecorOp) :
    ((DecorState.construct h a).run ops).heap = h ∧
    ((((DecorState.construct h a).run ops).heap a).leftType = (h a).leftType ∧
      (((DecorState.construct h a).run ops).heap a).rightType = (h a).rightType) ∧
    ((DecorState.construct h a).run ops).decor._atom = a ∧
    (∀ s : DecorState,
      (s.step DecorOp.markAsTextSymbol).heap = s.heap ∧
      (s.step DecorOp.markAsTextSymbol).decor._textSymbol = true ∧
      (s.step DecorOp.markAsTextSymbol).decor._atom = s.decor._atom ∧
      (s.step DecorOp.markAsTextSymbol).decor._type = s.decor._type ∧
      (s.step DecorOp.markAsTextSymbol).decor.leftType (s.step DecorOp.markAsTextSymbol).heap
        = s.decor.leftType s.heap ∧
      (s.step DecorOp.markAsTextSymbol).decor.rightType (s.step DecorOp.markAsTextSymbol).heap
        = s.decor.rightType s.heap) := by
  have hrun := DecorState.run_heap ops (DecorState.construct h a)
  have hheap : ((DecorState.construct h a).run ops).heap = h := hrun.1
  refine ⟨hheap, ⟨by rw [hheap], by rw [hheap]⟩, hrun.2, ?_⟩
  intro s
  exact ⟨rfl, rfl, rfl, rfl, rfl, rfl⟩

/-- C6: a freshly constructed decoration has no override and is not marked as
a text symbol, so its left and right type are those of the atom it wraps. -/
theorem AtomDecor.new_has_no_override (h : Heap) (a : AtomRef) :
    (AtomDecor.new a)._type = AtomType.none ∧
    (AtomDecor.new a)._textSymbol = false ∧
    (AtomDecor.new a)._atom = a ∧
    (AtomDecor.new a).leftType h = (h a).leftType ∧
    (AtomDecor.new a).rightType h = (h a).rightType := by
  simp [AtomDecor.new, AtomDecor.leftType, AtomDecor.rightType]

/-! ## `RowAtom`: breakability -/

/-- C7: `setBreakable(b)` sets the breakability flag to `b` and leaves the
children, hence the size, `_lookAtLastAtom` and the stored previous decoration
unchanged; a default-constructed row is breakable, has `_lookAtLastAtom` unset,
no previous decoration and no children. -/
theorem RowAtom.setBreakable_sets_only_flag (r : RowAtom) (b : Bool) :
    (r.setBreakable b)._breakable = b ∧
    (r.setBreakable b)._elements = r._elements ∧
    (r.setBreakable b).size = r.size ∧
    (r.setBreakable b)._lookAtLastAtom = r._lookAtLastAtom ∧
    (r.setBreakable b)._previousAtom = r._previousAtom ∧
    RowAtom.new._breakable = true ∧
    RowAtom.new._lookAtLastAtom = false ∧
    RowAtom.new._previousAtom = none ∧
    RowAtom.new.size = 0 :=
  ⟨rfl, rfl, rfl, rfl, rfl, rfl, rfl, rfl, rfl⟩

/-! ## `RowAtom`: reclassification of binary operators -/

theorem RowAtom.changeToOrd_of_binary (binSet : AtomType → Bool) (h : Heap) (a : AtomRef)
    (prev : Option AtomDecor) (next : Option AtomRef)
    (hbin : (h a).leftType = AtomType.binaryOperator)
    (hprev : ∀ p, prev = some p → binSet (p.rightType h) = true) :
    RowAtom.changeToOrd binSet h (AtomDecor.new a) prev next
      = { AtomDecor.new a with _type := AtomType.ordinary } := by
  have hl : (AtomDecor.new a).leftType h = AtomType.binaryOperator := by
    simp [AtomDecor.new, AtomDecor.leftType, hbin]
  cases prev with
  | none => simp [RowAtom.changeToOrd, hl]
  | some p => simp [RowAtom.changeToOrd, hl, hprev p rfl]

/-- The decoration at position `i` of the classification pass is `changeToOrd`
of a fresh decoration against the decoration at position `i - 1`, or against
the seed at position `0`. -/
theorem RowAtom.classifyFrom_get (binSet : AtomType → Bool) (h : Heap) :
    ∀ (elems : List AtomRef) (prev : Option AtomDecor) (i : Nat) (a : AtomRef),
      elems[i]? = some a →
      (RowAtom.classifyFrom binSet h prev elems)[i]? =
        some (RowAtom.changeToOrd binSet h (AtomDecor.new a)
          (match i with
           | 0 => prev
           | j + 1 => (RowAtom.classifyFrom binSet h prev elems)[j]?)
          elems[i + 1]?) := by
  intro elems
  induction elems with
  | nil => intro prev i a ha; simp at ha
  | cons e rest ih =>
    intro prev i a ha
    cases i with
    | zero =>
      simp only [List.getElem?_cons_zero, Option.some.injEq] at ha
      subst ha
      cases rest <;> simp [RowAtom.classifyFrom]
    | succ j =>
      simp only [List.getElem?_cons_succ] at ha
      have hj := ih (some (RowAtom.changeToOrd binSet h (AtomDecor.new e) prev rest.head?)) j a ha
      simp only [RowAtom.classifyFrom, List.getElem?_cons_succ]
      rw [hj]
      cases j with
      | zero => simp
      | succ k => simp

/-- C3: bin-reclassification.  In the classification pass of a row, whatever
the table `binSet`, an element whose class is binary operator and which stands
at position `0` with no previous decoration, or right after an element whose
decoration has an effective right type in `binSet`, gets the override
`ordinary`: its decoration reports `ordinary` as left and as right type. -/
theorem RowAtom.binary_reclassified_as_ordinary (binSet : AtomType → Bool) (h : Heap)
    (r : RowAtom) (i : Nat) (a : AtomRef)
    (ha : r._elements[i]? = some a)
    (hbin : (h a).leftType = AtomType.binaryOperator)
    (hctx : (i = 0 ∧ r._previousAtom = none) ∨
      (∃ j p, i = j + 1 ∧ (RowAtom.classify binSet h r)[j]? = some p ∧
        binSet (p.rightType h) = true)) :
    ∃ d, (RowAtom.classify binSet h r)[i]? = some d ∧
      d._atom = a ∧ d._type = AtomType.ordinary ∧
      d.leftType h = AtomType.ordinary ∧ d.rightType h = AtomType.ordinary := by
  have hget := RowAtom.classifyFrom_get binSet h r._elements r._previousAtom i a ha
  refine ⟨{ AtomDecor.new a with _type := AtomType.ordinary }, ?_, rfl, rfl, ?_, ?_⟩
  · rw [RowAtom.classify, hget]
    congr 1
    apply RowAtom.changeToOrd_of_binary binSet h a _ _ hbin
    intro p hp
    rcases hctx with ⟨hi, hnone⟩ | ⟨j, p', hi, hp', hset⟩
    · subst hi
      simp only [hnone] at hp
      exact absurd hp (by simp)
    · subst hi
      simp only [RowAtom.classify] at hp'
      simp only [hp', Option.some.injEq] at hp
      subst hp
      exact hset
  · simp [AtomDecor.leftType]
  · simp [AtomDecor.rightType]

/-- C3 on the row `[relation, binary-op, ordinary]` (the atoms at addresses `0`,
`1`, `2`) with the table `_binSet`: the binary operator at position `1`
follows a relation and is classified as ordinary. -/
theorem RowAtom.binary_reclassified_as_ordinary_witness :
    ∃ d, (RowAtom.classify RowAtom._binSet
        (fun n => if n = 0 then ⟨AtomType.relation, AtomType.relation, AtomType.relation⟩
          else if n = 1 then
            ⟨AtomType.binaryOperator, AtomType.binaryOperator, AtomType.binaryOperator⟩
          else ⟨AtomType.ordinary, AtomType.ordinary, AtomType.ordinary⟩)
        ⟨true, [0, 1, 2], none, false⟩)[1]? = some d ∧
      d._atom = 1 ∧ d._type = AtomType.ordinary ∧
      d.leftType
        (fun n => if n = 0 then ⟨AtomType.relation, AtomType.relation, AtomType.relation⟩
          else if n = 1 then
            ⟨AtomType.binaryOperator, AtomType.binaryOperator, AtomType.binaryOperator⟩
          else ⟨AtomType.ordinary, AtomType.ordinary, AtomType.ordinary⟩) = AtomType.ordinary ∧
      d.rightType
        (fun n => if n = 0 then ⟨AtomType.relation, AtomType.relation, AtomType.relation⟩
          else if n = 1 then
            ⟨AtomType.binaryOperator, AtomType.binaryOperator, AtomType.binaryOperator⟩
          else ⟨AtomType.ordinary, AtomType.ordinary, AtomType.ordinary⟩) = AtomType.ordinary :=
  RowAtom.binary_reclassified_as_ordinary RowAtom._binSet _ ⟨true, [0, 1, 2], none, false⟩ 1 1
    rfl rfl (Or.inr ⟨0, ⟨0, false, AtomType.none⟩, rfl, by decide, by decide⟩)

/-! ## `RowAtom`: the empty row -/

/-- C4: on a row without children, `createBox` succeeds, in every context and
with any collaborators, and returns a box of zero width, height and depth; a
default-constructed row is such a row. -/
theorem RowAtom.createBox_empty {Env F : Type} [Zero F] [Add F] [Max F]
    (c : RowCollab Env F) (binSet : AtomType → Bool) (env : Env) (h : Heap) (r : RowAtom)
    (hr : r.size = 0) :
    RowAtom.createBox c binSet env h r
      = Except.ok { _width := 0, _height := 0, _depth := 0, _shift := 0 } ∧
    RowAtom.createBox c binSet env h RowAtom.new
      = Except.ok { _width := 0, _height := 0, _depth := 0, _shift := 0 } := by
  have hnil : r._elements = [] := List.length_eq_zero.mp hr
  constructor
  · simp [RowAtom.createBox, RowAtom.classify, RowAtom.classifyFrom, RowAtom.rowBoxes, HBox, hnil]
  · simp [RowAtom.createBox, RowAtom.classify, RowAtom.classifyFrom, RowAtom.rowBoxes, HBox,
      RowAtom.new]

/-- C4 on a row without children that is not breakable and has a previous
decoration, with collaborators whose element boxes always fail. -/
theorem RowAtom.createBox_empty_witness :
    RowAtom.size ⟨false, [], some ⟨7, true, AtomType.relation⟩, true⟩ = 0 ∧
    RowAtom.createBox
      (⟨fun _ _ _ => Except.error "no glyph", fun _ _ _ => none, fun _ => false,
        fun _ _ _ => ⟨1, 1, 1, 0⟩⟩ : RowCollab Unit Int)
      RowAtom._binSet ()
      (fun _ => ⟨AtomType.ordinary, AtomType.ordinary, AtomType.ordinary⟩)
      ⟨false, [], some ⟨7, true, AtomType.relation⟩, true⟩
      = Except.ok { _width := 0, _height := 0, _depth := 0, _shift := 0 } :=
  ⟨rfl, (RowAtom.createBox_empty _ _ _ _
    ⟨false, [], some ⟨7, true, AtomType.relation⟩, true⟩ rfl).1⟩

/-! ## Peripheral atoms: `createBox` depends on the atom and the context only -/

/-- C5: `createBox` of `BigDelimiterAtom`, `RotateAtom` and `CancelAtom` is a
function of the fields of the atom and of the context.  For any relation `R`
between contexts that the collaborators respect, two calls on the same atom in
`R`-related contexts return equal boxes and leave `R`-related contexts behind,
and every call returns the atom with all its fields as they were. -/
theorem createBox_depends_on_atom_and_context {Env F Fields : Type}
    [Neg F] [Sub F] [Mul F] [Div F] [OfNat F 2]
    (c : Collab Env F) (R : Env → Env → Prop) (hc : c.Respects R)
    (e₁ e₂ : Env) (he : R e₁ e₂)
    (big : BigDelimiterAtom) (rot : RotateAtom F) (can : CancelAtom Fields) :
    ((big.createBox c e₁).1 = (big.createBox c e₂).1 ∧
      R (big.createBox c e₁).2.1 (big.createBox c e₂).2.1 ∧
      (big.createBox c e₁).2.2 = big) ∧
    ((rot.createBox c e₁).1 = (rot.createBox c e₂).1 ∧
      R (rot.createBox c e₁).2.1 (rot.createBox c e₂).2.1 ∧
      (rot.createBox c e₁).2.2 = rot) ∧
    ((can.createBox c e₁).1 = (can.createBox c e₂).1 ∧
      R (can.createBox c e₁).2.1 (can.createBox c e₂).2.1 ∧
      (can.createBox c e₁).2.2 = can) := by
  refine ⟨?_, ?_, ⟨rfl, he, rfl⟩⟩
  · obtain ⟨hb, hr⟩ := hc.createVDelim big._delim big._size e₁ e₂ he
    refine ⟨?_, hr, rfl⟩
    simp only [BigDelimiterAtom.createBox]
    rw [hb, hc.axisHeight _ _ hr, hc.scale _ _ hr]
  · obtain ⟨hb, hr⟩ := hc.baseCreateBox rot._base e₁ e₂ he
    by_cases ho : rot._option = Rotation.none
    · refine ⟨?_, ?_, ?_⟩
      · simp only [RotateAtom.createBox, ho, ne_eq, not_true_eq_false, if_false]
        rw [hb, hc.fsize _ _ _ _ he, hc.fsize _ _ _ _ he]
      · simpa only [RotateAtom.createBox, ho, ne_eq, not_true_eq_false, if_false] using hr
      · simp only [RotateAtom.createBox, ho, ne_eq, not_true_eq_false, if_false]
    · refine ⟨?_, ?_, ?_⟩
      · simp only [RotateAtom.createBox, ho, ne_eq, not_false_eq_true, if_true]
        rw [hb]
      · simpa only [RotateAtom.createBox, ho, ne_eq, not_false_eq_true, if_true] using hr
      · simp only [RotateAtom.createBox, ho, ne_eq, not_false_eq_true, if_true]

theorem sampleCollab_respects : sampleCollab.Respects (fun a b => a % 2 = b % 2) where
  createVDelim := by
    intro d s e₁ e₂ he
    simp only [sampleCollab] at *
    refine ⟨by rw [he], by omega⟩
  axisHeight := by
    intro e₁ e₂ he
    simp only [sampleCollab] at *
    rw [he]
  scale := by intro e₁ e₂ _; rfl
  baseCreateBox := by
    intro a e₁ e₂ he
    simp only [sampleCollab] at *
    refine ⟨by rw [he], by omega⟩
  fsize := by
    intro u x e₁ e₂ he
    simp only [sampleCollab] at *
    rw [he]

/-- C5 on the contexts `1` and `3`, which the sample collaborators cannot tell
apart, for a delimiter atom, a rotation atom on the offset branch and a
cancellation atom. -/
theorem createBox_depends_on_atom_and_context_witness :
    sampleCollab.Respects (fun a b => a % 2 = b % 2) ∧ 1 % 2 = 3 % 2 ∧
    (((BigDelimiterAtom.mk 5 1).createBox sampleCollab 1).1
        = ((BigDelimiterAtom.mk 5 1).createBox sampleCollab 3).1 ∧
      ((BigDelimiterAtom.mk 5 1).createBox sampleCollab 1).2.1 % 2
        = ((BigDelimiterAtom.mk 5 1).createBox sampleCollab 3).2.1 % 2 ∧
      ((BigDelimiterAtom.mk 5 1).createBox sampleCollab 1).2.2 = BigDelimiterAtom.mk 5 1) ∧
    (((RotateAtom.mk AtomType.ordinary 9 90 Rotation.none UnitType.em 0 UnitType.em
          0).createBox sampleCollab 1).1
        = ((RotateAtom.mk AtomType.ordinary 9 90 Rotation.none UnitType.em 0 UnitType.em
          0).createBox sampleCollab 3).1 ∧
      ((RotateAtom.mk AtomType.ordinary 9 90 Rotation.none UnitType.em 0 UnitType.em
          0).createBox sampleCollab 1).2.1 % 2
        = ((RotateAtom.mk AtomType.ordinary 9 90 Rotation.none UnitType.em 0 UnitType.em
          0).createBox sampleCollab 3).2.1 % 2 ∧
      ((RotateAtom.mk AtomType.ordinary 9 90 Rotation.none UnitType.em 0 UnitType.em
          0).createBox sampleCollab 1).2.2
        = RotateAtom.mk AtomType.ordinary 9 90 Rotation.none UnitType.em 0 UnitType.em 0) ∧
    (((CancelAtom.mk ()).createBox sampleCollab 1).1
        = ((CancelAtom.mk ()).createBox sampleCollab 3).1 ∧
      ((CancelAtom.mk ()).createBox sampleCollab 1).2.1 % 2
        = ((CancelAtom.mk ()).createBox sampleCollab 3).2.1 % 2 ∧
      ((CancelAtom.mk ()).createBox sampleCollab 1).2.2 = CancelAtom.mk ()) :=
  ⟨sampleCollab_respects, rfl,
    createBox_depends_on_atom_and_context sampleCollab (fun a b => a % 2 = b % 2)
      sampleCollab_respects 1 3 rfl (BigDelimiterAtom.mk 5 1)
      (RotateAtom.mk AtomType.ordinary 9 90 Rotation.none UnitType.em 0 UnitType.em 0)
      (CancelAtom.mk ())⟩

/-! ## `RotateAtom`: which `RotateBox` is built -/

theorem RotateAtom.createBox_origin {Env F : Type} (c : Collab Env F) (self : RotateAtom F)
    (env : Env) (ho : self._option ≠ Rotation.none) :
    (self.createBox c env).1
      = RotateBox.byOrigin (c.baseCreateBox self._base env).1 self._angle self._option := by
  simp [RotateAtom.createBox, ho]

theorem RotateAtom.createBox_offset {Env F : Type} (c : Collab Env F) (self : RotateAtom F)
    (env : Env) (ho : self._option = Rotation.none) :
    (self.createBox c env).1
      = RotateBox.byOffset (c.baseCreateBox self._base env).1 self._angle
          (c.fsize self._xunit self._x env) (c.fsize self._yunit self._y env) := by
  simp [RotateAtom.createBox, ho]

/-- The branch of `RotateAtom::createBox` by constructor, for arbitrary
collaborators.  An atom built by the constructor taking a `float` angle from an
option map without the key `origin` keeps `_option = bl`, which is not `none`,
takes each of x and y from its key, or as `(point, 0)` when the key is absent,
and `createBox` builds `RotateBox(base box, angle, bl)`, in which the offsets
do not occur.  Whichever constructor built the atom, `createBox` builds
`RotateBox(base box, angle, x, y)` only if `_option` was assigned `none` by
`getOrigin` (called on the value of the key `origin` by the constructor taking
a `float` angle, on the whole option by the constructor taking a string
angle), and then x and y are the size of `0 em`.  What `getOrigin` answers is
decided outside `atom_misc.cpp`. -/
theorem RotateAtom.createBox_branch_by_constructor {Env F : Type} [Zero F]
    (rc : RotateCollab F) (c : Collab Env F) (h : Heap) (base : AtomRef)
    (angle : F) (sangle option : String) (env : Env) :
    (List.lookup "origin" (rc.parseOption (rc.wide2utf8 option)) = none →
      (RotateAtom.ofFloat rc h base angle option)._option = Rotation.bl ∧
      Rotation.bl ≠ Rotation.none ∧
      ((RotateAtom.ofFloat rc h base angle option)._xunit,
          (RotateAtom.ofFloat rc h base angle option)._x)
        = (match List.lookup "x" (rc.parseOption (rc.wide2utf8 option)) with
           | some v => rc.getLength v
           | none => (UnitType.point, 0)) ∧
      ((RotateAtom.ofFloat rc h base angle option)._yunit,
          (RotateAtom.ofFloat rc h base angle option)._y)
        = (match List.lookup "y" (rc.parseOption (rc.wide2utf8 option)) with
           | some v => rc.getLength v
           | none => (UnitType.point, 0)) ∧
      ((RotateAtom.ofFloat rc h base angle option).createBox c env).1
        = RotateBox.byOrigin (c.baseCreateBox base env).1 angle Rotation.bl) ∧
    (∀ b a x y,
      ((RotateAtom.ofFloat rc h base angle option).createBox c env).1
          = RotateBox.byOffset b a x y →
        (∃ v, List.lookup "origin" (rc.parseOption (rc.wide2utf8 option)) = some v ∧
          rc.getOrigin v = Rotation.none) ∧
        x = c.fsize UnitType.em 0 env ∧ y = c.fsize UnitType.em 0 env) ∧
    (∀ b a x y,
      ((RotateAtom.ofString rc h base sangle option).createBox c env).1
          = RotateBox.byOffset b a x y →
        rc.getOrigin (rc.wide2utf8 option) = Rotation.none ∧
        x = c.fsize UnitType.em 0 env ∧ y = c.fsize UnitType.em 0 env) := by
  refine ⟨?_, ?_, ?_⟩
  · intro hno
    have hopt : (RotateAtom.ofFloat rc h base angle option)._option = Rotation.bl := by
      simp only [RotateAtom.ofFloat, hno]
      cases List.lookup "x" (rc.parseOption (rc.wide2utf8 option)) <;>
        cases List.lookup "y" (rc.parseOption (rc.wide2utf8 option)) <;> rfl
    have hbase : (RotateAtom.ofFloat rc h base angle option)._base = base := by
      simp only [RotateAtom.ofFloat, hno]
      cases List.lookup "x" (rc.parseOption (rc.wide2utf8 option)) <;>
        cases List.lookup "y" (rc.parseOption (rc.wide2utf8 option)) <;> rfl
    have hangle : (RotateAtom.ofFloat rc h base angle option)._angle = angle := by
      simp only [RotateAtom.ofFloat, hno]
      cases List.lookup "x" (rc.parseOption (rc.wide2utf8 option)) <;>
        cases List.lookup "y" (rc.parseOption (rc.wide2utf8 option)) <;> rfl
    refine ⟨hopt, by decide, ?_, ?_, ?_⟩
    · simp only [RotateAtom.ofFloat, hno]
      cases List.lookup "x" (rc.parseOption (rc.wide2utf8 option)) <;>
        cases List.lookup "y" (rc.parseOption (rc.wide2utf8 option)) <;> rfl
    · simp only [RotateAtom.ofFloat, hno]
      cases List.lookup "x" (rc.parseOption (rc.wide2utf8 option)) <;>
        cases List.lookup "y" (rc.parseOption (rc.wide2utf8 option)) <;> rfl
    · rw [RotateAtom.createBox_origin c _ env (by rw [hopt]; decide), hopt, hbase, hangle]
  · intro b a x y hbox
    cases hlk : List.lookup "origin" (rc.parseOption (rc.wide2utf8 option)) with
    | none =>
      have hopt : (RotateAtom.ofFloat rc h base angle option)._option = Rotation.bl := by
        simp only [RotateAtom.ofFloat, hlk]
        cases List.lookup "x" (rc.parseOption (rc.wide2utf8 option)) <;>
          cases List.lookup "y" (rc.parseOption (rc.wide2utf8 option)) <;> rfl
      rw [RotateAtom.createBox_origin c _ env (by rw [hopt]; decide)] at hbox
      exact absurd hbox (by simp)
    | some v =>
      have hself : RotateAtom.ofFloat rc h base angle option
          = { _type := (h base)._type, _base := base, _angle := angle,
              _option := rc.getOrigin v, _xunit := UnitType.em, _yunit := UnitType.em,
              _x := 0, _y := 0 } := by
        simp only [RotateAtom.ofFloat, hlk]
      by_cases hg : rc.getOrigin v = Rotation.none
      · rw [RotateAtom.createBox_offset c _ env (by rw [hself]; exact hg), hself] at hbox
        simp only [RotateBox.byOffset.injEq] at hbox
        exact ⟨⟨v, rfl, hg⟩, hbox.2.2.1.symm, hbox.2.2.2.symm⟩
      · rw [RotateAtom.createBox_origin c _ env (by rw [hself]; exact hg)] at hbox
        exact absurd hbox (by simp)
  · intro b a x y hbox
    have hself : RotateAtom.ofString rc h base sangle option
        = { _type := (h base)._type, _base := base, _angle := rc.valueof sangle 0,
            _option := rc.getOrigin (rc.wide2utf8 option), _xunit := UnitType.em,
            _yunit := UnitType.em, _x := 0, _y := 0 } := by
      simp only [RotateAtom.ofString]
    by_cases hg : rc.getOrigin (rc.wide2utf8 option) = Rotation.none
    · rw [RotateAtom.createBox_offset c _ env (by rw [hself]; exact hg), hself] at hbox
      simp only [RotateBox.byOffset.injEq] at hbox
      exact ⟨hg, hbox.2.2.1.symm, hbox.2.2.2.symm⟩
    · rw [RotateAtom.createBox_origin c _ env (by rw [hself]; exact hg)] at hbox
      exact absurd hbox (by simp)

/-! ## `LongDivAtom::calculate` -/

theorem tableauEntry_even (divisor dividend : Int) (q d n : Nat) :
    tableauEntry divisor dividend q d (2 + 2 * n) =
      ((q / 10 ^ (d - n - 1) % 10 * 10 ^ (d - n - 1) : Nat) : Int) * divisor := by
  have h1 : (2 + 2 * n) % 2 = 0 := by omega
  have h2 : (2 + 2 * n) / 2 = n + 1 := by omega
  have h3 : d - (n + 1) = d - n - 1 := by omega
  simp [tableauEntry, h1, h2, h3]

theorem tableauEntry_odd (divisor dividend : Int) (q d n : Nat) :
    tableauEntry divisor dividend q d (1 + 2 * n) =
      dividend - ((q / 10 ^ (d - n) * 10 ^ (d - n) : Nat) : Int) * divisor := by
  have h1 : (1 + 2 * n) % 2 = 1 := by omega
  have h2 : (1 + 2 * n) / 2 = n := by omega
  simp [tableauEntry, h1, h2]

theorem truncated_succ (q m : Nat) :
    q / 10 ^ m * 10 ^ m = q / 10 ^ (m + 1) * 10 ^ (m + 1) + q / 10 ^ m % 10 * 10 ^ m := by
  have h1 : q / 10 ^ (m + 1) = q / 10 ^ m / 10 := by
    rw [pow_succ, Nat.div_div_eq_div_mul]
  have h2 := Nat.mod_add_div (q / 10 ^ m) 10
  rw [h1, pow_succ]
  nth_rewrite 1 [← h2]
  ring

theorem tableauEntry_step (divisor dividend : Int) (q d n : Nat) (hn : n < d) :
    tableauEntry divisor dividend q d (1 + 2 * (n + 1)) =
      tableauEntry divisor dividend q d (1 + 2 * n)
        - tableauEntry divisor dividend q d (2 + 2 * n) := by
  rw [tableauEntry_odd, tableauEntry_odd, tableauEntry_even]
  have e1 : d - n = (d - n - 1) + 1 := by omega
  have e2 : d - (n + 1) = d - n - 1 := by omega
  have h := truncated_succ q (d - n - 1)
  rw [e2]
  rw [← e1] at h
  rw [h]
  push_cast
  ring

/-- The loop of `calculate` after `n` rounds, for a string `x` that is the
decimal rendering of `q`: `remaining` is the tableau entry `1 + 2 * n`, and
`results` holds the renderings of the entries `0` to `1 + 2 * n`. -/
theorem calculate_loop (divisor dividend : Int) (q : Nat) (x : List Char)
    (hdig : ∀ i, i < x.length →
      ((x.getD i '0').toNat : Int) - (('0').toNat : Int)
        = ((q / 10 ^ (x.length - i - 1) % 10 : Nat) : Int))
    (hub : q < 10 ^ x.length) :
    ∀ n, n ≤ x.length →
      (List.range n).foldl (LongDivAtom.calculateBody divisor x x.length)
          (dividend, [towstring (q : Int)] ++ [towstring dividend])
        = (tableauEntry divisor dividend q x.length (1 + 2 * n),
            ((List.range (2 + 2 * n)).map (tableauEntry divisor dividend q x.length)).map
              towstring) := by
  intro n
  induction n with
  | zero =>
    intro _
    have h0 : q / 10 ^ x.length = 0 := Nat.div_eq_of_lt hub
    have e1 : tableauEntry divisor dividend q x.length 1 = dividend := by
      have := tableauEntry_odd divisor dividend q x.length 0
      simpa [h0] using this
    have e0 : tableauEntry divisor dividend q x.length 0 = (q : Int) := by
      simp [tableauEntry]
    simp [List.range_succ, e0, e1]
  | succ n ih =>
    intro hn
    have hlt : n < x.length := by omega
    rw [List.range_succ, List.foldl_append, ih (by omega)]
    have hr : List.range (2 + 2 * (n + 1))
        = List.range (2 + 2 * n) ++ [2 + 2 * n] ++ [1 + 2 * (n + 1)] := by
      have e : 2 + 2 * (n + 1) = (2 + 2 * n + 1) + 1 := by ring
      have e' : 1 + 2 * (n + 1) = 2 + 2 * n + 1 := by ring
      rw [e, List.range_succ, List.range_succ, e']
    have hprod : (((x.getD n '0').toNat : Int) - (('0').toNat : Int)) * 10 ^ (x.length - n - 1)
          * divisor = tableauEntry divisor dividend q x.length (2 + 2 * n) := by
      rw [tableauEntry_even, hdig n hlt]
      push_cast
      ring
    simp only [List.foldl_cons, List.foldl_nil, LongDivAtom.calculateBody]
    rw [hprod, ← tableauEntry_step divisor dividend q x.length n hlt, hr]
    simp

theorem digitChar_value : ∀ d, d < 10 →
    ((Nat.digitChar d).toNat : Int) - (('0').toNat : Int) = (d : Int) := by
  decide

/-- With enough fuel `decimalDigits` puts a nonempty block of characters in
front of the accumulator, as many as `n` has decimal digits, and the character
at index `i` has the value of the digit of `n` at place `10 ^ (length - i - 1)`. -/
theorem decimalDigits_spec : ∀ (fuel n : Nat) (acc : List Char), n < fuel →
    ∃ ds : List Char, decimalDigits fuel n acc = ds ++ acc ∧ 1 ≤ ds.length ∧
      n < 10 ^ ds.length ∧ (0 < n → 10 ^ (ds.length - 1) ≤ n) ∧
      ∀ i, i < ds.length →
        ((ds.getD i '0').toNat : Int) - (('0').toNat : Int)
          = ((n / 10 ^ (ds.length - i - 1) % 10 : Nat) : Int) := by
  intro fuel
  induction fuel with
  | zero => intro n acc h; omega
  | succ fuel ih =>
    intro n acc hn
    by_cases h0 : n / 10 = 0
    · refine ⟨[Nat.digitChar (n % 10)], ?_, ?_, ?_, ?_, ?_⟩
      · simp [decimalDigits, h0]
      · simp
      · simp; omega
      · intro hpos; simpa using hpos
      · intro i hi
        have hi0 : i = 0 := by simpa using hi
        subst hi0
        have hv := digitChar_value (n % 10) (Nat.mod_lt _ (by decide))
        simpa using hv
    · have hlt : n / 10 < fuel := by omega
      obtain ⟨ds, hds, hlen, hub, hlb, hdig⟩ := ih (n / 10) (Nat.digitChar (n % 10) :: acc) hlt
      refine ⟨ds ++ [Nat.digitChar (n % 10)], ?_, ?_, ?_, ?_, ?_⟩
      · simp [decimalDigits, h0, hds]
      · simp
      · rw [List.length_append, List.length_singleton, pow_succ]
        omega
      · intro _
        have hq : 0 < n / 10 := Nat.pos_of_ne_zero h0
        have h1 := hlb hq
        have hpow : 10 ^ ds.length = 10 ^ (ds.length - 1) * 10 := by
          rw [← pow_succ]; congr 1; omega
        simp only [List.length_append, List.length_singleton, Nat.add_sub_cancel]
        rw [hpow]; omega
      · intro i hi
        simp only [List.length_append, List.length_singleton] at hi ⊢
        by_cases hil : i < ds.length
        · rw [List.getD_append _ _ _ _ hil, hdig i hil]
          have e : ds.length + 1 - i - 1 = (ds.length - i - 1) + 1 := by omega
          rw [e, pow_succ, Nat.mul_comm, ← Nat.div_div_eq_div_mul]
        · have hie : i = ds.length := by omega
          subst hie
          rw [List.getD_append_right _ _ _ _ (le_refl _)]
          have hv := digitChar_value (n % 10) (Nat.mod_lt _ (by decide))
          have e : ds.length + 1 - ds.length - 1 = 0 := by omega
          rw [e, Nat.sub_self]
          simpa using hv

/-- The decimal rendering of a natural number. -/
theorem tostring_natCast (q : Nat) :
    1 ≤ (tostring (q : Int)).length ∧ q < 10 ^ (tostring (q : Int)).length ∧
      (0 < q → 10 ^ ((tostring (q : Int)).length - 1) ≤ q) ∧
      ∀ i, i < (tostring (q : Int)).length →
        (((tostring (q : Int)).getD i '0').toNat : Int) - (('0').toNat : Int)
          = ((q / 10 ^ ((tostring (q : Int)).length - i - 1) % 10 : Nat) : Int) := by
  obtain ⟨ds, hds, h1, h2, h3, h4⟩ := decimalDigits_spec (q + 1) q [] (Nat.lt_succ_self q)
  have hx : tostring (q : Int) = ds := by
    have hneg : ¬ ((q : Int) < 0) := by omega
    simp [tostring, hneg, hds]
  rw [hx]
  exact ⟨h1, h2, h3, h4⟩

/-- The strings `calculate` returns are the renderings of the tableau entries. -/
theorem calculate_eq (divisor dividend : Int) (q : Nat) (hdiv : divisor ≠ 0)
    (hq : Int.tdiv dividend divisor = (q : Int)) :
    LongDivAtom.calculate divisor dividend =
      some (((List.range (2 + 2 * (tostring (q : Int)).length)).map
        (tableauEntry divisor dividend q (tostring (q : Int)).length)).map towstring) := by
  obtain ⟨_, hub, _, hdig⟩ := tostring_natCast q
  have h := calculate_loop divisor dividend q (tostring (q : Int)) hdig hub
    (tostring (q : Int)).length (le_refl _)
  simp only [LongDivAtom.calculate, hdiv, if_false, hq, h]

/-- The per-digit terms of the first `n` digits sum to the quotient truncated
to these digits. -/
theorem digit_terms_sum (q : Nat) (x : List Char)
    (hdig : ∀ i, i < x.length →
      ((x.getD i '0').toNat : Int) - (('0').toNat : Int)
        = ((q / 10 ^ (x.length - i - 1) % 10 : Nat) : Int))
    (hub : q < 10 ^ x.length) :
    ∀ n, n ≤ x.length →
      ((List.range n).map (fun i =>
        (((x.getD i '0').toNat : Int) - (('0').toNat : Int)) * 10 ^ (x.length - i - 1))).sum
        = ((q / 10 ^ (x.length - n) * 10 ^ (x.length - n) : Nat) : Int) := by
  intro n
  induction n with
  | zero =>
    intro _
    simp [Nat.div_eq_of_lt hub]
  | succ n ih =>
    intro hn
    have hlt : n < x.length := by omega
    have e1 : x.length - n = (x.length - n - 1) + 1 := by omega
    have e2 : x.length - (n + 1) = x.length - n - 1 := by omega
    have h := truncated_succ q (x.length - n - 1)
    rw [← e1] at h
    rw [List.range_succ, List.map_append, List.sum_append, ih (by omega), e2, h]
    simp only [List.map_cons, List.map_nil, List.sum_cons, List.sum_nil]
    rw [hdig n hlt]
    push_cast
    ring

theorem tableauEntry_last (divisor dividend : Int) (q d : Nat) :
    tableauEntry divisor dividend q d (1 + 2 * d) = dividend - (q : Int) * divisor := by
  rw [tableauEntry_odd]
  simp

/-- C8: for `0 ≤ dividend` and `0 < divisor`, `calculate` returns, and the last
string pushed to `results` renders `dividend - (dividend / divisor) * divisor`,
which is `dividend mod divisor` and lies in `[0, divisor)`; the per-digit
terms `digit_i * 10 ^ (len - i - 1)` over the characters of the rendered
quotient sum to the quotient. -/
theorem LongDivAtom.calculate_last_is_remainder (divisor dividend : Int)
    (hdvd : 0 ≤ dividend) (hdiv : 0 < divisor) :
    ∃ results : List (List Char),
      LongDivAtom.calculate divisor dividend = some results ∧
      results.getLast? = some (towstring (dividend - Int.tdiv dividend divisor * divisor)) ∧
      dividend - Int.tdiv dividend divisor * divisor = dividend % divisor ∧
      0 ≤ dividend % divisor ∧ dividend % divisor < divisor ∧
      ((List.range (tostring (Int.tdiv dividend divisor)).length).map (fun i =>
        ((((tostring (Int.tdiv dividend divisor)).getD i '0').toNat : Int) - (('0').toNat : Int))
          * 10 ^ ((tostring (Int.tdiv dividend divisor)).length - i - 1))).sum
        = Int.tdiv dividend divisor := by
  have hq0 : Int.tdiv dividend divisor = dividend / divisor :=
    Int.tdiv_eq_ediv hdvd (le_of_lt hdiv)
  have hqnn : 0 ≤ dividend / divisor := Int.ediv_nonneg hdvd (le_of_lt hdiv)
  have hq : Int.tdiv dividend divisor = (((dividend / divisor).toNat : Nat) : Int) := by
    rw [hq0, Int.toNat_of_nonneg hqnn]
  have hcalc := calculate_eq divisor dividend (dividend / divisor).toNat (ne_of_gt hdiv) hq
  obtain ⟨_, hub, _, hdig⟩ := tostring_natCast (dividend / divisor).toNat
  have hsum := digit_terms_sum (dividend / divisor).toNat _ hdig hub _ (le_refl _)
  rw [← hq] at hcalc hsum
  refine ⟨_, hcalc, ?_, ?_, Int.emod_nonneg _ (ne_of_gt hdiv), Int.emod_lt_of_pos _ hdiv, ?_⟩
  · rw [show 2 + 2 * (tostring (Int.tdiv dividend divisor)).length
        = (1 + 2 * (tostring (Int.tdiv dividend divisor)).length) + 1 by ring,
      List.range_succ, List.map_append, List.map_append]
    simp only [List.map_cons, List.map_nil, List.getLast?_concat]
    rw [tableauEntry_last, ← hq]
  · rw [hq0, Int.emod_def]; ring
  · rw [hsum]; simp [hq]

/-- C8 on `100 / 7`: the last string renders the remainder `2`. -/
theorem LongDivAtom.calculate_last_is_remainder_witness :
    (0 : Int) ≤ 100 ∧ (0 : Int) < 7 ∧
    ∃ results : List (List Char),
      LongDivAtom.calculate 7 100 = some results ∧
      results.getLast? = some (towstring (100 - Int.tdiv 100 7 * 7)) ∧
      100 - Int.tdiv 100 7 * 7 = (100 : Int) % 7 ∧
      0 ≤ (100 : Int) % 7 ∧ (100 : Int) % 7 < 7 ∧
      ((List.range (tostring (Int.tdiv 100 7)).length).map (fun i =>
        ((((tostring (Int.tdiv 100 7)).getD i '0').toNat : Int) - (('0').toNat : Int))
          * 10 ^ ((tostring (Int.tdiv 100 7)).length - i - 1))).sum
        = Int.tdiv 100 7 :=
  ⟨by decide, by decide, LongDivAtom.calculate_last_is_remainder 7 100 (by decide) (by decide)⟩

/-- Every tableau entry lies between `0` and the dividend. -/
theorem tableauEntry_bounds (divisor dividend : Int) (q d j : Nat)
    (hdiv : 0 < divisor) (hq : (q : Int) * divisor ≤ dividend) :
    0 ≤ tableauEntry divisor dividend q d j ∧ tableauEntry divisor dividend q d j ≤ dividend := by
  have hq0 : (0 : Int) ≤ (q : Int) := Int.natCast_nonneg q
  have hle : ∀ m : Nat, m ≤ q → 0 ≤ (m : Int) * divisor ∧ (m : Int) * divisor ≤ dividend := by
    intro m hm
    have h1 : (m : Int) ≤ (q : Int) := by exact_mod_cast hm
    have h2 := mul_le_mul_of_nonneg_right h1 (le_of_lt hdiv)
    have h3 : (0 : Int) ≤ (m : Int) * divisor :=
      mul_nonneg (Int.natCast_nonneg m) (le_of_lt hdiv)
    exact ⟨h3, le_trans h2 hq⟩
  have htr : q / 10 ^ (d - j / 2) * 10 ^ (d - j / 2) ≤ q := Nat.div_mul_le_self _ _
  have hdg : q / 10 ^ (d - j / 2) % 10 * 10 ^ (d - j / 2) ≤ q :=
    le_trans (Nat.mul_le_mul_right _ (Nat.mod_le _ _)) htr
  unfold tableauEntry
  split_ifs with h0 h1
  · refine ⟨hq0, le_trans ?_ hq⟩
    nlinarith
  · have := hle _ htr
    constructor <;> linarith [this.1, this.2]
  · exact hle _ hdg

/-- C9: for `0 ≤ dividend` and `0 < divisor`, with `q` the quotient and `d` the
number of its decimal digits (`d = 1` for `q = 0`, and `10 ^ (d - 1) ≤ q <
10 ^ d` otherwise), `calculate` returns the renderings of `2 + 2 * d` values:
value `0` is `q`, value `1` is the dividend, and for each `k < d` value
`2 * k + 2` is the `k`-th digit of `q` times `10 ^ (d - k - 1)` times the
divisor and value `2 * k + 3` is value `2 * k + 1` less value `2 * k + 2`;
the remainders, at the odd indices, are not negative. -/
theorem LongDivAtom.calculate_shape (divisor dividend : Int)
    (hdvd : 0 ≤ dividend) (hdiv : 0 < divisor) :
    ∃ (vals : List Int) (d : Nat),
      LongDivAtom.calculate divisor dividend = some (vals.map towstring) ∧
      d = (tostring (Int.tdiv dividend divisor)).length ∧
      1 ≤ d ∧ Int.tdiv dividend divisor < 10 ^ d ∧
      (0 < Int.tdiv dividend divisor → 10 ^ (d - 1) ≤ Int.tdiv dividend divisor) ∧
      vals.length = 2 + 2 * d ∧
      vals[0]? = some (Int.tdiv dividend divisor) ∧
      vals[1]? = some dividend ∧
      (∀ k, k < d →
        vals[2 * k + 2]? = some
          (Int.tdiv dividend divisor / 10 ^ (d - k - 1) % 10 * 10 ^ (d - k - 1) * divisor)) ∧
      (∀ k, k < d → ∃ r p r', vals[2 * k + 1]? = some r ∧ vals[2 * k + 2]? = some p ∧
        vals[2 * k + 3]? = some r' ∧ r' = r - p) ∧
      (∀ k, k ≤ d → ∃ r, vals[2 * k + 1]? = some r ∧ 0 ≤ r) := by
  have hq0 : Int.tdiv dividend divisor = dividend / divisor :=
    Int.tdiv_eq_ediv hdvd (le_of_lt hdiv)
  have hqnn : 0 ≤ dividend / divisor := Int.ediv_nonneg hdvd (le_of_lt hdiv)
  have hq : Int.tdiv dividend divisor = (((dividend / divisor).toNat : Nat) : Int) := by
    rw [hq0, Int.toNat_of_nonneg hqnn]
  have hcalc := calculate_eq divisor dividend (dividend / divisor).toNat (ne_of_gt hdiv) hq
  obtain ⟨hlen, hub, hlb, _⟩ := tostring_natCast (dividend / divisor).toNat
  have hmul : (((dividend / divisor).toNat : Nat) : Int) * divisor ≤ dividend := by
    rw [← hq, hq0]
    exact Int.ediv_mul_le dividend (ne_of_gt hdiv)
  rw [hq]
  generalize (dividend / divisor).toNat = q at *
  generalize hd : (tostring (q : Int)).length = d at *
  have hget : ∀ j, j < 2 + 2 * d →
      ((List.range (2 + 2 * d)).map (tableauEntry divisor dividend q d))[j]?
        = some (tableauEntry divisor dividend q d j) := by
    intro j hj
    rw [List.getElem?_map, List.getElem?_range hj]
    rfl
  refine ⟨_, d, hcalc, rfl, hlen, by exact_mod_cast hub, ?_, by simp, ?_, ?_, ?_, ?_, ?_⟩
  · intro hpos
    have : 0 < q := by exact_mod_cast hpos
    exact_mod_cast hlb this
  · rw [hget 0 (by omega)]; simp [tableauEntry]
  · rw [hget 1 (by omega)]
    have := tableauEntry_odd divisor dividend q d 0
    simp only [Nat.mul_zero, Nat.add_zero, Nat.sub_zero] at this
    rw [this, Nat.div_eq_of_lt hub]
    simp
  · intro k hk
    rw [hget _ (by omega), show 2 * k + 2 = 2 + 2 * k by ring, tableauEntry_even]
    push_cast
    rfl
  · intro k hk
    refine ⟨_, _, _, hget _ (by omega), hget _ (by omega), hget _ (by omega), ?_⟩
    rw [show 2 * k + 3 = 1 + 2 * (k + 1) by ring, show 2 * k + 2 = 2 + 2 * k by ring,
      show 2 * k + 1 = 1 + 2 * k by ring]
    exact tableauEntry_step divisor dividend q d k hk
  · intro k hk
    exact ⟨_, hget _ (by omega), (tableauEntry_bounds divisor dividend q d _ hdiv hmul).1⟩

/-- C9 on `1234 / 12`, whose quotient `102` has three digits, one of them `0`. -/
theorem LongDivAtom.calculate_shape_witness :
    (0 : Int) ≤ 1234 ∧ (0 : Int) < 12 ∧
    ∃ (vals : List Int) (d : Nat),
      LongDivAtom.calculate 12 1234 = some (vals.map towstring) ∧
      d = (tostring (Int.tdiv 1234 12)).length ∧
      1 ≤ d ∧ Int.tdiv 1234 12 < 10 ^ d ∧
      (0 < Int.tdiv 1234 12 → 10 ^ (d - 1) ≤ Int.tdiv 1234 12) ∧
      vals.length = 2 + 2 * d ∧
      vals[0]? = some (Int.tdiv 1234 12) ∧
      vals[1]? = some 1234 ∧
      (∀ k, k < d →
        vals[2 * k + 2]? = some
          (Int.tdiv 1234 12 / 10 ^ (d - k - 1) % 10 * 10 ^ (d - k - 1) * 12)) ∧
      (∀ k, k < d → ∃ r p r', vals[2 * k + 1]? = some r ∧ vals[2 * k + 2]? = some p ∧
        vals[2 * k + 3]? = some r' ∧ r' = r - p) ∧
      (∀ k, k ≤ d → ∃ r, vals[2 * k + 1]? = some r ∧ 0 ≤ r) :=
  ⟨by decide, by decide, LongDivAtom.calculate_shape 12 1234 (by decide) (by decide)⟩

/-- Every value `calculate` renders, each `product` and each `remaining` among
them, lies between `0` and the dividend, hence in the range of `long` when the
dividend is. -/
theorem calculate_products_bounded (divisor dividend : Int)
    (hdvd : 0 ≤ dividend) (hdiv : 0 < divisor) :
    ∃ vals : List Int,
      LongDivAtom.calculate divisor dividend = some (vals.map towstring) ∧
      ∀ v, v ∈ vals → 0 ≤ v ∧ v ≤ dividend := by
  have hq0 : Int.tdiv dividend divisor = dividend / divisor :=
    Int.tdiv_eq_ediv hdvd (le_of_lt hdiv)
  have hqnn : 0 ≤ dividend / divisor := Int.ediv_nonneg hdvd (le_of_lt hdiv)
  have hq : Int.tdiv dividend divisor = (((dividend / divisor).toNat : Nat) : Int) := by
    rw [hq0, Int.toNat_of_nonneg hqnn]
  have hmul : (((dividend / divisor).toNat : Nat) : Int) * divisor ≤ dividend := by
    rw [← hq, hq0]
    exact Int.ediv_mul_le dividend (ne_of_gt hdiv)
  refine ⟨_, calculate_eq divisor dividend (dividend / divisor).toNat (ne_of_gt hdiv) hq, ?_⟩
  intro v hv
  obtain ⟨j, _, rfl⟩ := List.mem_map.mp hv
  exact tableauEntry_bounds divisor dividend _ _ j hdiv hmul

end tex
